import Mathlib

/-!
Shallow embedding of the `hunt` predator/prey simulation core
(`src/entities/mod.rs`): the interaction engine `interact`, the motion
integrator `nudge`, and the keyboard-driven velocity routine
`keyboard_movement`.

Positions and radii in `interact` are embedded over `ℚ` (the source uses
`f32`; all interaction-engine arithmetic is ring operations and order
comparisons, which we read as exact arithmetic). The motion integrator's
rotation branch and `keyboard_movement` use `sqrt`/`acos`, so they are
embedded over `ℝ`.

The files `conf.rs`, `predator.rs`, `prey.rs` and `components.rs` are
declared by the crate but absent from the sources; the definitions that
stand in for them are marked `Modelled from the spec:` below.
-/

namespace Hunt

/-- 3-component vector, mirroring `glam`/bevy `Vec3` (over an arbitrary
coordinate field; the source uses `f32`). -/
structure Vec3 (α : Type) where
  x : α
  y : α
  z : α
deriving DecidableEq, Repr

/-- 2-component vector, mirroring `glam`/bevy `Vec2`. -/
structure Vec2 (α : Type) where
  x : α
  y : α
deriving DecidableEq, Repr

def Vec3.zero [Zero α] : Vec3 α := ⟨0, 0, 0⟩

def Vec3.add [Add α] (a b : Vec3 α) : Vec3 α := ⟨a.x + b.x, a.y + b.y, a.z + b.z⟩

/-- Scalar multiplication `v * s` of a `Vec3` (glam multiplies componentwise). -/
def Vec3.smul [Mul α] (a : Vec3 α) (s : α) : Vec3 α := ⟨a.x * s, a.y * s, a.z * s⟩

/-- `Vec3::truncate`: drop the `z` component. -/
def Vec3.truncate (a : Vec3 α) : Vec2 α := ⟨a.x, a.y⟩

/-- `Vec3::distance2`: squared Euclidean distance between two points. -/
def Vec3.distance2 [Field α] (a b : Vec3 α) : α :=
  (a.x - b.x) ^ 2 + (a.y - b.y) ^ 2 + (a.z - b.z) ^ 2

/-- `Vec2::splat s` fills both components with `s`. -/
def Vec2.splat (s : α) : Vec2 α := ⟨s, s⟩

def Vec2.zero [Zero α] : Vec2 α := ⟨0, 0⟩

/-- Componentwise `Vec2::min`. -/
def Vec2.cmin [LinearOrder α] (a b : Vec2 α) : Vec2 α := ⟨min a.x b.x, min a.y b.y⟩

/-- Componentwise `Vec2::max`. -/
def Vec2.cmax [LinearOrder α] (a b : Vec2 α) : Vec2 α := ⟨max a.x b.x, max a.y b.y⟩

/-- `Vec2::extend z`: re-attach a `z` component. -/
def Vec2.extend (a : Vec2 α) (zc : α) : Vec3 α := ⟨a.x, a.y, zc⟩

/-- Modelled from the spec: `conf.rs` is not among the sources. §6 lists the
four configuration constants — world size and three radii, the radii
"provided/consumed as squared values internally". We carry them as a
parameter record, so every theorem quantifies over their values. -/
structure Config where
  /-- `conf::predator::VIEW_RADIUS` (a squared radius). -/
  predatorView : ℚ
  /-- `conf::predator::STRIKE_RADIUS` (a squared radius). -/
  predatorStrike : ℚ
  /-- `conf::prey::VIEW_RADIUS` (a squared radius). -/
  preyView : ℚ
  /-- `conf::MAP_SIZE`. -/
  mapSize : ℚ
deriving DecidableEq, Repr

/-- Modelled from the spec: `predator.rs` is not among the sources. §3 gives
the predator's role-specific mutable state: a `score : integer ≥ 0` and
`last_seen_prey : Optional<Vec2>` (we keep the full position the engine
passes to `spot_prey`). -/
structure Predator where
  score : ℕ
  last_seen_prey : Option (Vec3 ℚ)
deriving DecidableEq, Repr

/-- Modelled from the spec: `Predator::score()` — "incremented once per tick
per distinct prey it successfully strikes; never decremented". -/
def Predator.scoreUp (p : Predator) : Predator :=
  { p with score := p.score + 1 }

/-- Modelled from the spec: `Predator::spot_prey(pos)` — `last_seen_prey` is
"overwritten each tick with the most recent position of a prey that entered
its visual range but evaded capture". -/
def Predator.spot_prey (p : Predator) (pos : Vec3 ℚ) : Predator :=
  { p with last_seen_prey := some pos }

/-- Modelled from the spec: `prey.rs` is not among the sources; §3 says
"Prey extends Agent with no additional persistent state in this core". The
`interact` loop destructures `(&mut Prey, &mut Translation)` but never
writes the `Prey` component. -/
structure Prey where
  mk ::
deriving DecidableEq, Repr

/-- Rust `iter().enumerate()` starting at index `n`. -/
def enumFrom : ℕ → List α → List (ℕ × α)
  | _, [] => []
  | n, a :: rest => (n, a) :: enumFrom (n + 1) rest

/-- The classification loop of `interact` (src/entities/mod.rs:60-81): for one
prey position, scan the enumerated predator positions and build the index
lists `predators_which_eat_me`, `predators_which_see_me`,
`predators_which_i_see`, in iteration order. Out-of-range predators
(`distance > conf::predator::VIEW_RADIUS`) are skipped; within view,
`distance <= conf::predator::STRIKE_RADIUS` pushes onto the eat list,
otherwise the predator is pushed onto the see list and, when additionally
`distance < conf::prey::VIEW_RADIUS` (strict, as in the source), onto the
i-see list. -/
def classify (cfg : Config) (preyPos : Vec3 ℚ) :
    List (ℕ × Vec3 ℚ) → List ℕ × List ℕ × List ℕ
  | [] => ([], [], [])
  | (i, ppos) :: rest =>
    let d := Vec3.distance2 ppos preyPos
    let r := classify cfg preyPos rest
    if d > cfg.predatorView then r
    else if d ≤ cfg.predatorStrike then (i :: r.1, r.2.1, r.2.2)
    else (r.1, i :: r.2.1, if d < cfg.preyView then i :: r.2.2 else r.2.2)

/-- `predators_which_eat_me` for one prey (indices into the predator list). -/
def eatMe (cfg : Config) (predPos : List (Vec3 ℚ)) (preyPos : Vec3 ℚ) : List ℕ :=
  (classify cfg preyPos (enumFrom 0 predPos)).1

/-- `predators_which_see_me` for one prey. -/
def seeMe (cfg : Config) (predPos : List (Vec3 ℚ)) (preyPos : Vec3 ℚ) : List ℕ :=
  (classify cfg preyPos (enumFrom 0 predPos)).2.1

/-- `predators_which_i_see` for one prey. -/
def iSee (cfg : Config) (predPos : List (Vec3 ℚ)) (preyPos : Vec3 ℚ) : List ℕ :=
  (classify cfg preyPos (enumFrom 0 predPos)).2.2

/-- `predators.get_mut(i)` followed by an in-place update: modify the `i`-th
element if it exists, otherwise leave the list unchanged. -/
def modifyNth (f : α → α) : ℕ → List α → List α
  | _, [] => []
  | 0, a :: rest => f a :: rest
  | n + 1, a :: rest => a :: modifyNth f n rest

/-- Result of processing a single prey inside `interact`: the updated
predator states plus the signals printed for this prey ("I see a predator."
fires at most once per prey; "I see a prey." fires once per predator index
in `predators_which_see_me`). -/
structure PreyOutcome where
  predators : List Predator
  /-- whether the prey-side "I see a predator." signal was raised -/
  iSeePredatorSignal : Bool
  /-- predator indices for which "I see a prey." was printed -/
  iSeePreySignals : List ℕ
deriving DecidableEq, Repr

/-- The per-prey resolution of `interact` (src/entities/mod.rs:52-105): if the
eat list is non-empty each eating predator scores and nothing else happens;
otherwise the "I see a predator." signal fires when the i-see list is
non-empty, and every seeing predator gets `spot_prey` with this prey's
position. -/
def interactPrey (cfg : Config) (predPos : List (Vec3 ℚ))
    (states : List Predator) (preyPos : Vec3 ℚ) : PreyOutcome :=
  let eat := eatMe cfg predPos preyPos
  let see := seeMe cfg predPos preyPos
  let isee := iSee cfg predPos preyPos
  if eat ≠ [] then
    { predators := eat.foldl (fun st i => modifyNth Predator.scoreUp i st) states
      iSeePredatorSignal := false
      iSeePreySignals := [] }
  else
    { predators :=
        see.foldl (fun st i => modifyNth (fun p => p.spot_prey preyPos) i st) states
      iSeePredatorSignal := decide (isee ≠ [])
      iSeePreySignals := see }

/-- The full interaction pass (src/entities/mod.rs:29-106): predator
positions/states are snapshotted, then every prey is processed in order; the
signals of each prey are collected in order. Prey records are only read. -/
def interact (cfg : Config) (predPos : List (Vec3 ℚ)) (states : List Predator)
    (preyPos : List (Vec3 ℚ)) : List Predator × List (Bool × List ℕ) :=
  preyPos.foldl
    (fun acc y =>
      let out := interactPrey cfg predPos acc.1 y
      (out.predators, acc.2 ++ [(out.iSeePredatorSignal, out.iSeePreySignals)]))
    (states, [])

/-- The simulation state `interact` touches: predator states and positions
(borrowed mutably resp. immutably) and prey states and positions (both
borrowed mutably through the `Query`, but never written). -/
structure World where
  predatorStates : List Predator
  predatorPositions : List (Vec3 ℚ)
  preyStates : List Prey
  preyPositions : List (Vec3 ℚ)
deriving DecidableEq, Repr

/-- `interact` as a transformation of the whole simulation state, together
with the per-prey signals it raised. -/
def interactWorld (cfg : Config) (w : World) : World × List (Bool × List ℕ) :=
  let r := interact cfg w.predatorPositions w.predatorStates w.preyPositions
  ({ w with predatorStates := r.1 }, r.2)

/-- The number of prey positions in a list whose squared distance to the
point `p` is within the squared strike radius — the count of distinct prey a
predator at `p` strikes in one pass. -/
def countStrikes (cfg : Config) (p : Vec3 ℚ) : List (Vec3 ℚ) → ℕ
  | [] => 0
  | y :: rest =>
    (if Vec3.distance2 p y ≤ cfg.predatorStrike then 1 else 0) +
      countStrikes cfg p rest

/-! ## Motion integrator (`nudge`) and keyboard movement, over `ℝ`

These routines use `normalize` (a square root) and `acos`, so they are
embedded over the real numbers; the `f32` operations are read as their exact
real counterparts. -/

/-- `Vec3::length`: Euclidean norm. -/
noncomputable def Vec3.length (v : Vec3 ℝ) : ℝ :=
  Real.sqrt (v.x ^ 2 + v.y ^ 2 + v.z ^ 2)

/-- `Vec3::normalize`: divide every component by the length. (On the zero
vector the source divides 0.0 by 0.0, producing NaN; in this embedding the
Lean convention `0 / 0 = 0` yields the zero vector — in both readings the
result is not a unit vector.) -/
noncomputable def Vec3.normalize (v : Vec3 ℝ) : Vec3 ℝ :=
  ⟨v.x / v.length, v.y / v.length, v.z / v.length⟩

/-- `f32::signum` on non-NaN input: `1.0` for positive or zero (Rust returns
`1.0` for `+0.0`), `-1.0` for negative. -/
noncomputable def fsignum (x : ℝ) : ℝ := if x < 0 then -1 else 1

/-- Quaternion, mirroring bevy/glam `Quat` (x, y, z, w components). -/
structure Quat where
  x : ℝ
  y : ℝ
  z : ℝ
  w : ℝ

/-- `Quat::from_rotation_z(θ)`: the quaternion of the pure rotation by angle
`θ` about the z axis (the planar normal). -/
noncomputable def Quat.fromRotationZ (θ : ℝ) : Quat :=
  ⟨0, 0, Real.sin (θ / 2), Real.cos (θ / 2)⟩

/-- The position/orientation pair `nudge` mutates for one agent. -/
structure MotionState where
  pos : Vec3 ℝ
  rot : Quat

/-- The loop body of `nudge` (src/entities/mod.rs:114-131) for one agent:
`pos + vel * delta_seconds`, truncated to 2D, clamped componentwise with
`min(splat MAP_SIZE)` then `max(zero)`, re-extended with `z = 0`; the
rotation is replaced by `from_rotation_z(acos(vn.x) * signum(vn.y))` for the
normalized velocity `vn` whenever the velocity is not the zero vector. -/
noncomputable def nudge (mapSize dt : ℝ) (vel : Vec3 ℝ) (s : MotionState) :
    MotionState :=
  let posVec := s.pos.add (vel.smul dt)
  let posClamped :=
    ((posVec.truncate.cmin (Vec2.splat mapSize)).cmax Vec2.zero).extend 0
  let rot :=
    if vel = Vec3.zero then s.rot
    else
      let velNorm := vel.normalize
      Quat.fromRotationZ (Real.arccos velNorm.x * fsignum velNorm.y)
  ⟨posClamped, rot⟩

/-- The four directional keys `keyboard_movement` reads. -/
structure KeyState where
  left : Bool
  right : Bool
  down : Bool
  up : Bool
deriving DecidableEq, Repr

/-- The x-direction input of `keyboard_movement`: `Left` wins over `Right`. -/
def xVel (k : KeyState) : ℝ := if k.left then -1 else if k.right then 1 else 0

/-- The y-direction input of `keyboard_movement`: `Down` wins over `Up`. -/
def yVel (k : KeyState) : ℝ := if k.down then -1 else if k.up then 1 else 0

/-- `keyboard_movement` (src/entities/mod.rs:137-169): build the direction
vector from the pressed keys, scale by `delta_seconds * max_speed`, and if
that change is non-zero replace the velocity with the renormalized sum
`(vel + change).normalize() * max_speed`. -/
noncomputable def keyboard_movement (dt : ℝ) (k : KeyState) (vel : Vec3 ℝ)
    (maxSpeed : ℝ) : Vec3 ℝ :=
  let velChange := ((Vec3.mk (xVel k) (yVel k) 0).smul dt).smul maxSpeed
  if velChange ≠ Vec3.zero then ((vel.add velChange).normalize).smul maxSpeed
  else vel


/-! ## Helper lemmas about vector length over `ℝ` -/

theorem Vec3.length_nonneg (v : Vec3 ℝ) : 0 ≤ v.length :=
  Real.sqrt_nonneg _

theorem Vec3.length_eq_zero_iff (v : Vec3 ℝ) :
    v.length = 0 ↔ v = Vec3.zero := by
  obtain ⟨a, b, c⟩ := v
  unfold Vec3.length
  constructor
  · intro h
    rw [Real.sqrt_eq_zero' ] at h
    have ha : a = 0 := by nlinarith [sq_nonneg a, sq_nonneg b, sq_nonneg c]
    have hb : b = 0 := by nlinarith [sq_nonneg a, sq_nonneg b, sq_nonneg c]
    have hc : c = 0 := by nlinarith [sq_nonneg a, sq_nonneg b, sq_nonneg c]
    simp [Vec3.zero, ha, hb, hc]
  · intro h
    obtain ⟨rfl, rfl, rfl⟩ := Vec3.mk.injEq .. |>.mp (h.trans rfl)
    simp

theorem Vec3.length_pos (v : Vec3 ℝ) (h : v ≠ Vec3.zero) : 0 < v.length :=
  lt_of_le_of_ne (Vec3.length_nonneg v)
    (fun h0 => h ((Vec3.length_eq_zero_iff v).mp h0.symm))

theorem Vec3.length_smul (v : Vec3 ℝ) (c : ℝ) :
    (v.smul c).length = |c| * v.length := by
  unfold Vec3.length Vec3.smul
  have hsq : (v.x * c) ^ 2 + (v.y * c) ^ 2 + (v.z * c) ^ 2 =
      c ^ 2 * (v.x ^ 2 + v.y ^ 2 + v.z ^ 2) := by ring
  rw [hsq, Real.sqrt_mul (sq_nonneg c), Real.sqrt_sq_eq_abs]

theorem Vec3.normalize_eq_smul (v : Vec3 ℝ) :
    v.normalize = v.smul (v.length)⁻¹ := by
  simp [Vec3.normalize, Vec3.smul, div_eq_mul_inv]

theorem Vec3.length_normalize (v : Vec3 ℝ) (h : v ≠ Vec3.zero) :
    v.normalize.length = 1 := by
  have hl : 0 < v.length := Vec3.length_pos v h
  rw [Vec3.normalize_eq_smul, Vec3.length_smul, abs_inv, abs_of_pos hl,
    inv_mul_cancel₀ (ne_of_gt hl)]

theorem Vec3.length_zero : (Vec3.zero : Vec3 ℝ).length = 0 := by
  simp [Vec3.length, Vec3.zero]

theorem Vec3.normalize_zero : (Vec3.zero : Vec3 ℝ).normalize = Vec3.zero := by
  simp [Vec3.normalize, Vec3.zero]

/-! ## Helper lemmas about the interaction engine -/

theorem modifyNth_get? (f : α → α) (l : List α) :
    ∀ j i, (modifyNth f j l)[i]? =
      if i = j then l[i]?.map f else l[i]? := by
  induction l with
  | nil => intro j i; simp [modifyNth]
  | cons a rest ih =>
    intro j i
    cases j with
    | zero =>
      cases i with
      | zero => simp [modifyNth]
      | succ k => simp [modifyNth]
    | succ m =>
      cases i with
      | zero => simp [modifyNth]
      | succ k => simpa [modifyNth] using ih m k

theorem foldl_modifyNth_get? (f : α → α) :
    ∀ (js : List ℕ), js.Nodup → ∀ (st : List α) (i : ℕ),
      (js.foldl (fun s j => modifyNth f j s) st)[i]? =
        if i ∈ js then st[i]?.map f else st[i]? := by
  intro js
  induction js with
  | nil => intro _ st i; simp
  | cons j t ih =>
    intro hnd st i
    obtain ⟨hj, ht⟩ := List.nodup_cons.mp hnd
    rw [List.foldl_cons, ih ht, modifyNth_get?]
    by_cases hij : i = j
    · subst hij
      simp [hj]
    · simp [hij, List.mem_cons]

theorem mem_enumFrom (l : List α) :
    ∀ (n j : ℕ) (p : α),
      ((j, p) ∈ enumFrom n l) ↔ ∃ k, j = n + k ∧ l[k]? = some p := by
  induction l with
  | nil => intro n j p; simp [enumFrom]
  | cons a rest ih =>
    intro n j p
    simp only [enumFrom, List.mem_cons, ih, Prod.mk.injEq]
    constructor
    · rintro (⟨rfl, rfl⟩ | ⟨k, rfl, hk⟩)
      · exact ⟨0, by omega, by simp⟩
      · exact ⟨k + 1, by omega, by simpa using hk⟩
    · rintro ⟨k, rfl, hk⟩
      cases k with
      | zero =>
        simp only [List.getElem?_cons_zero] at hk
        injection hk with hk
        exact Or.inl ⟨by omega, hk.symm⟩
      | succ m =>
        simp only [List.getElem?_cons_succ] at hk
        exact Or.inr ⟨m, by omega, hk⟩

theorem mem_enumFrom_zero (l : List α) (j : ℕ) (p : α) :
    ((j, p) ∈ enumFrom 0 l) ↔ l[j]? = some p := by
  rw [mem_enumFrom]
  constructor
  · rintro ⟨k, rfl, hk⟩
    simpa using hk
  · intro h
    exact ⟨j, by omega, h⟩

theorem enumFrom_map_fst (l : List α) :
    ∀ n, (enumFrom n l).map Prod.fst = List.range' n l.length := by
  induction l with
  | nil => intro n; simp [enumFrom]
  | cons a rest ih => intro n; simp [enumFrom, List.range', ih]

theorem classify_sublists (cfg : Config) (y : Vec3 ℚ) (L : List (ℕ × Vec3 ℚ)) :
    List.Sublist (classify cfg y L).1 (L.map Prod.fst) ∧
    List.Sublist (classify cfg y L).2.1 (L.map Prod.fst) ∧
    List.Sublist (classify cfg y L).2.2 (L.map Prod.fst) := by
  induction L with
  | nil => simp [classify]
  | cons hd rest ih =>
    obtain ⟨i, p⟩ := hd
    obtain ⟨h1, h2, h3⟩ := ih
    simp only [classify, List.map_cons]
    split_ifs with hv hs hp
    · exact ⟨h1.cons i, h2.cons i, h3.cons i⟩
    · exact ⟨h1.cons₂ i, h2.cons i, h3.cons i⟩
    · exact ⟨h1.cons i, h2.cons₂ i, h3.cons₂ i⟩
    · exact ⟨h1.cons i, h2.cons₂ i, h3.cons i⟩

theorem nodup_classify (cfg : Config) (predPos : List (Vec3 ℚ)) (y : Vec3 ℚ) :
    (eatMe cfg predPos y).Nodup ∧ (seeMe cfg predPos y).Nodup ∧
      (iSee cfg predPos y).Nodup := by
  have hnd : ((enumFrom 0 predPos).map Prod.fst).Nodup := by
    rw [enumFrom_map_fst]
    exact List.nodup_range' 0 _ 1 one_pos
  obtain ⟨h1, h2, h3⟩ := classify_sublists cfg y (enumFrom 0 predPos)
  exact ⟨List.Nodup.sublist h1 hnd, List.Nodup.sublist h2 hnd,
    List.Nodup.sublist h3 hnd⟩

theorem mem_classify_eat (cfg : Config) (y : Vec3 ℚ) (j : ℕ) :
    ∀ L : List (ℕ × Vec3 ℚ),
      j ∈ (classify cfg y L).1 ↔
        ∃ p, (j, p) ∈ L ∧ ¬ Vec3.distance2 p y > cfg.predatorView ∧
          Vec3.distance2 p y ≤ cfg.predatorStrike := by
  intro L
  induction L with
  | nil => simp [classify]
  | cons hd rest ih =>
    obtain ⟨i, q⟩ := hd
    simp only [classify]
    split_ifs with hv hs hp
    · rw [ih]
      constructor
      · rintro ⟨p, hp2, hc⟩
        exact ⟨p, List.mem_cons_of_mem _ hp2, hc⟩
      · rintro ⟨p, hp2, hc⟩
        rcases List.mem_cons.mp hp2 with heq | hmem
        · obtain ⟨rfl, rfl⟩ := Prod.mk.injEq .. |>.mp heq
          exact absurd hv hc.1
        · exact ⟨p, hmem, hc⟩
    · rw [List.mem_cons, ih]
      constructor
      · rintro (rfl | ⟨p, hp2, hc⟩)
        · exact ⟨q, List.mem_cons_self _ _, hv, hs⟩
        · exact ⟨p, List.mem_cons_of_mem _ hp2, hc⟩
      · rintro ⟨p, hp2, hc⟩
        rcases List.mem_cons.mp hp2 with heq | hmem
        · exact Or.inl ((Prod.mk.injEq .. |>.mp heq).1)
        · exact Or.inr ⟨p, hmem, hc⟩
    all_goals
      rw [ih]
      constructor
      · rintro ⟨p, hp2, hc⟩
        exact ⟨p, List.mem_cons_of_mem _ hp2, hc⟩
      · rintro ⟨p, hp2, hc⟩
        rcases List.mem_cons.mp hp2 with heq | hmem
        · obtain ⟨rfl, rfl⟩ := Prod.mk.injEq .. |>.mp heq
          exact absurd hc.2 hs
        · exact ⟨p, hmem, hc⟩

theorem mem_classify_see (cfg : Config) (y : Vec3 ℚ) (j : ℕ) :
    ∀ L : List (ℕ × Vec3 ℚ),
      j ∈ (classify cfg y L).2.1 ↔
        ∃ p, (j, p) ∈ L ∧ ¬ Vec3.distance2 p y > cfg.predatorView ∧
          ¬ Vec3.distance2 p y ≤ cfg.predatorStrike := by
  intro L
  induction L with
  | nil => simp [classify]
  | cons hd rest ih =>
    obtain ⟨i, q⟩ := hd
    simp only [classify]
    split_ifs with hv hs hp
    · rw [ih]
      constructor
      · rintro ⟨p, hp2, hc⟩
        exact ⟨p, List.mem_cons_of_mem _ hp2, hc⟩
      · rintro ⟨p, hp2, hc⟩
        rcases List.mem_cons.mp hp2 with heq | hmem
        · obtain ⟨rfl, rfl⟩ := Prod.mk.injEq .. |>.mp heq
          exact absurd hv hc.1
        · exact ⟨p, hmem, hc⟩
    · rw [ih]
      constructor
      · rintro ⟨p, hp2, hc⟩
        exact ⟨p, List.mem_cons_of_mem _ hp2, hc⟩
      · rintro ⟨p, hp2, hc⟩
        rcases List.mem_cons.mp hp2 with heq | hmem
        · obtain ⟨rfl, rfl⟩ := Prod.mk.injEq .. |>.mp heq
          exact absurd hs hc.2
        · exact ⟨p, hmem, hc⟩
    all_goals
      rw [List.mem_cons, ih]
      constructor
      · rintro (rfl | ⟨p, hp2, hc⟩)
        · exact ⟨q, List.mem_cons_self _ _, hv, hs⟩
        · exact ⟨p, List.mem_cons_of_mem _ hp2, hc⟩
      · rintro ⟨p, hp2, hc⟩
        rcases List.mem_cons.mp hp2 with heq | hmem
        · exact Or.inl ((Prod.mk.injEq .. |>.mp heq).1)
        · exact Or.inr ⟨p, hmem, hc⟩

theorem mem_classify_isee (cfg : Config) (y : Vec3 ℚ) (j : ℕ) :
    ∀ L : List (ℕ × Vec3 ℚ),
      j ∈ (classify cfg y L).2.2 ↔
        ∃ p, (j, p) ∈ L ∧ ¬ Vec3.distance2 p y > cfg.predatorView ∧
          ¬ Vec3.distance2 p y ≤ cfg.predatorStrike ∧
          Vec3.distance2 p y < cfg.preyView := by
  intro L
  induction L with
  | nil => simp [classify]
  | cons hd rest ih =>
    obtain ⟨i, q⟩ := hd
    simp only [classify]
    split_ifs with hv hs hp
    · rw [ih]
      constructor
      · rintro ⟨p, hp2, hc⟩
        exact ⟨p, List.mem_cons_of_mem _ hp2, hc⟩
      · rintro ⟨p, hp2, hc⟩
        rcases List.mem_cons.mp hp2 with heq | hmem
        · obtain ⟨rfl, rfl⟩ := Prod.mk.injEq .. |>.mp heq
          exact absurd hv hc.1
        · exact ⟨p, hmem, hc⟩
    · rw [ih]
      constructor
      · rintro ⟨p, hp2, hc⟩
        exact ⟨p, List.mem_cons_of_mem _ hp2, hc⟩
      · rintro ⟨p, hp2, hc⟩
        rcases List.mem_cons.mp hp2 with heq | hmem
        · obtain ⟨rfl, rfl⟩ := Prod.mk.injEq .. |>.mp heq
          exact absurd hs hc.2.1
        · exact ⟨p, hmem, hc⟩
    · rw [List.mem_cons, ih]
      constructor
      · rintro (rfl | ⟨p, hp2, hc⟩)
        · exact ⟨q, List.mem_cons_self _ _, hv, hs, hp⟩
        · exact ⟨p, List.mem_cons_of_mem _ hp2, hc⟩
      · rintro ⟨p, hp2, hc⟩
        rcases List.mem_cons.mp hp2 with heq | hmem
        · exact Or.inl ((Prod.mk.injEq .. |>.mp heq).1)
        · exact Or.inr ⟨p, hmem, hc⟩
    · rw [ih]
      constructor
      · rintro ⟨p, hp2, hc⟩
        exact ⟨p, List.mem_cons_of_mem _ hp2, hc⟩
      · rintro ⟨p, hp2, hc⟩
        rcases List.mem_cons.mp hp2 with heq | hmem
        · obtain ⟨rfl, rfl⟩ := Prod.mk.injEq .. |>.mp heq
          exact absurd hc.2.2 hp
        · exact ⟨p, hmem, hc⟩

theorem mem_eatMe_iff (cfg : Config) (predPos : List (Vec3 ℚ)) (y p : Vec3 ℚ)
    (i : ℕ) (hsv : cfg.predatorStrike ≤ cfg.predatorView)
    (hp : predPos[i]? = some p) :
    i ∈ eatMe cfg predPos y ↔ Vec3.distance2 p y ≤ cfg.predatorStrike := by
  unfold eatMe
  rw [mem_classify_eat]
  constructor
  · rintro ⟨q, hq, _, hs⟩
    rw [mem_enumFrom_zero, hp] at hq
    injection hq with hq
    exact hq ▸ hs
  · intro hd
    exact ⟨p, (mem_enumFrom_zero _ _ _).mpr hp, not_lt.mpr (hd.trans hsv), hd⟩

theorem not_mem_eatMe_of_far (cfg : Config) (predPos : List (Vec3 ℚ))
    (y p : Vec3 ℚ) (i : ℕ) (hp : predPos[i]? = some p)
    (hfar : Vec3.distance2 p y > cfg.predatorView) :
    i ∉ eatMe cfg predPos y := by
  unfold eatMe
  rw [mem_classify_eat]
  rintro ⟨q, hq, hv, _⟩
  rw [mem_enumFrom_zero, hp] at hq
  injection hq with hq
  exact hv (hq ▸ hfar)

theorem mem_seeMe_iff (cfg : Config) (predPos : List (Vec3 ℚ)) (y p : Vec3 ℚ)
    (i : ℕ) (hp : predPos[i]? = some p) :
    i ∈ seeMe cfg predPos y ↔
      cfg.predatorStrike < Vec3.distance2 p y ∧
        Vec3.distance2 p y ≤ cfg.predatorView := by
  unfold seeMe
  rw [mem_classify_see]
  constructor
  · rintro ⟨q, hq, hv, hs⟩
    rw [mem_enumFrom_zero, hp] at hq
    injection hq with hq
    subst hq
    exact ⟨not_le.mp hs, not_lt.mp hv⟩
  · rintro ⟨hs, hv⟩
    exact ⟨p, (mem_enumFrom_zero _ _ _).mpr hp, not_lt.mpr hv, not_le.mpr hs⟩

theorem mem_iSee_iff (cfg : Config) (predPos : List (Vec3 ℚ)) (y p : Vec3 ℚ)
    (i : ℕ) (hp : predPos[i]? = some p) :
    i ∈ iSee cfg predPos y ↔
      cfg.predatorStrike < Vec3.distance2 p y ∧
        Vec3.distance2 p y ≤ cfg.predatorView ∧
        Vec3.distance2 p y < cfg.preyView := by
  unfold iSee
  rw [mem_classify_isee]
  constructor
  · rintro ⟨q, hq, hv, hs, hy⟩
    rw [mem_enumFrom_zero, hp] at hq
    injection hq with hq
    subst hq
    exact ⟨not_le.mp hs, not_lt.mp hv, hy⟩
  · rintro ⟨hs, hv, hy⟩
    exact ⟨p, (mem_enumFrom_zero _ _ _).mpr hp, not_lt.mpr hv, not_le.mpr hs, hy⟩

/-- Master description of the predator-state update of one prey's resolution:
in the strike branch exactly the eat-list indices are bumped by `score()`,
otherwise exactly the see-list indices receive `spot_prey`. -/
theorem interactPrey_predators_get? (cfg : Config) (predPos : List (Vec3 ℚ))
    (states : List Predator) (y : Vec3 ℚ) (i : ℕ) :
    ((interactPrey cfg predPos states y).predators)[i]? =
      if eatMe cfg predPos y ≠ [] then
        (if i ∈ eatMe cfg predPos y then states[i]?.map Predator.scoreUp
         else states[i]?)
      else
        (if i ∈ seeMe cfg predPos y then
          states[i]?.map (fun p => p.spot_prey y)
         else states[i]?) := by
  obtain ⟨hnd1, hnd2, _⟩ := nodup_classify cfg predPos y
  by_cases he : eatMe cfg predPos y ≠ []
  · simp [interactPrey, he]
    rw [foldl_modifyNth_get? _ _ hnd1]
  · simp [interactPrey, he]
    rw [foldl_modifyNth_get? _ _ hnd2]

/-- The interaction pass threads only the predator-state component through
the prey loop; the signal accumulator does not feed back. -/
theorem foldl_pair_fst {β γ δ : Type} (g : β → δ → β) (h : β → γ → δ → γ) :
    ∀ (l : List δ) (b : β) (c : γ),
      (l.foldl (fun acc y => (g acc.1 y, h acc.1 acc.2 y)) (b, c)).1 =
        l.foldl g b := by
  intro l
  induction l with
  | nil => intro b c; rfl
  | cons y rest ih =>
    intro b c
    simp only [List.foldl_cons]
    exact ih _ _

/-- Effect of one prey's resolution on the score of the predator at index
`i` (shifted by an arbitrary constant `c`, so that the per-prey effects can
be chained over the prey loop): the score grows by one exactly when the prey
is within the squared strike radius. -/
theorem interactPrey_score_fun (cfg : Config) (predPos : List (Vec3 ℚ))
    (states : List Predator) (y p : Vec3 ℚ) (i : ℕ) (c : ℕ)
    (hsv : cfg.predatorStrike ≤ cfg.predatorView)
    (hp : predPos[i]? = some p) :
    (((interactPrey cfg predPos states y).predators)[i]?).map
        (fun s => s.score + c) =
      states[i]?.map (fun s => s.score +
        (c + if Vec3.distance2 p y ≤ cfg.predatorStrike then 1 else 0)) := by
  rw [interactPrey_predators_get?]
  by_cases he : eatMe cfg predPos y ≠ []
  · rw [if_pos he]
    by_cases hm : i ∈ eatMe cfg predPos y
    · have hd : Vec3.distance2 p y ≤ cfg.predatorStrike :=
        (mem_eatMe_iff cfg predPos y p i hsv hp).mp hm
      rw [if_pos hm, if_pos hd]
      cases states[i]? with
      | none => simp
      | some s =>
        simp [Predator.scoreUp, Nat.add_comm, Nat.add_left_comm, Nat.add_assoc]
    · have hd : ¬ Vec3.distance2 p y ≤ cfg.predatorStrike := fun h =>
        hm ((mem_eatMe_iff cfg predPos y p i hsv hp).mpr h)
      rw [if_neg hm, if_neg hd]
      simp
  · rw [if_neg he]
    rw [not_not] at he
    have hd : ¬ Vec3.distance2 p y ≤ cfg.predatorStrike := by
      intro h
      have hmem := (mem_eatMe_iff cfg predPos y p i hsv hp).mpr h
      rw [he] at hmem
      exact List.not_mem_nil i hmem
    rw [if_neg hd]
    by_cases hm : i ∈ seeMe cfg predPos y
    · rw [if_pos hm]
      cases states[i]? with
      | none => simp
      | some s => simp [Predator.spot_prey]
    · rw [if_neg hm]
      simp

/-- Chaining `interactPrey_score_fun` over all prey: after the whole prey
loop, the score at index `i` has grown by the number of struck prey. -/
theorem interact_score_aux (cfg : Config) (predPos : List (Vec3 ℚ)) (i : ℕ)
    (p : Vec3 ℚ) (hsv : cfg.predatorStrike ≤ cfg.predatorView)
    (hp : predPos[i]? = some p) :
    ∀ (preys : List (Vec3 ℚ)) (states : List Predator) (c : ℕ),
      ((preys.foldl (fun st y => (interactPrey cfg predPos st y).predators)
          states)[i]?).map (fun s => s.score + c) =
        states[i]?.map
          (fun s => s.score + (c + countStrikes cfg p preys)) := by
  intro preys
  induction preys with
  | nil => intro states c; simp [countStrikes]
  | cons y rest ih =>
    intro states c
    rw [List.foldl_cons, ih _ c,
      interactPrey_score_fun cfg predPos states y p i _ hsv hp]
    cases states[i]? with
    | none => simp
    | some s =>
      by_cases hd : Vec3.distance2 p y ≤ cfg.predatorStrike
      · simp [countStrikes, hd, Nat.add_comm, Nat.add_left_comm, Nat.add_assoc]
      · simp [countStrikes, hd]

theorem interact_states (cfg : Config) (predPos : List (Vec3 ℚ))
    (states : List Predator) (preyPos : List (Vec3 ℚ)) :
    (interact cfg predPos states preyPos).1 =
      preyPos.foldl (fun st y => (interactPrey cfg predPos st y).predators)
        states :=
  foldl_pair_fst (fun st y => (interactPrey cfg predPos st y).predators)
    (fun st sg y => sg ++ [((interactPrey cfg predPos st y).iSeePredatorSignal,
      (interactPrey cfg predPos st y).iSeePreySignals)]) preyPos states []

theorem countStrikes_eq_length_filter (cfg : Config) (p : Vec3 ℚ) :
    ∀ l : List (Vec3 ℚ), countStrikes cfg p l =
      (l.filter (fun q => Vec3.distance2 p q ≤ cfg.predatorStrike)).length := by
  intro l
  induction l with
  | nil => simp [countStrikes]
  | cons a rest ih =>
    by_cases hd : Vec3.distance2 p a ≤ cfg.predatorStrike
    · simp [countStrikes, List.filter_cons, hd, ih, Nat.add_comm]
    · simp [countStrikes, List.filter_cons, hd, ih]

/-! ## Claims -/

/-- C1: for every prey, if at least one predator is in that prey's strike
set, every such predator's record is replaced by its `score()`-incremented
copy (score up by exactly one), no predator's `last_seen_prey` changes from
this prey, and no sighting signal — neither the prey-side "I see a
predator." nor any "I see a prey." — is raised for this prey. -/
theorem C1_strike_priority (cfg : Config) (predPos : List (Vec3 ℚ))
    (states : List Predator) (y : Vec3 ℚ)
    (h : eatMe cfg predPos y ≠ []) :
    (∀ i ∈ eatMe cfg predPos y,
      ((interactPrey cfg predPos states y).predators)[i]? =
        states[i]?.map Predator.scoreUp) ∧
    (∀ i : ℕ,
      (((interactPrey cfg predPos states y).predators)[i]?).map
          Predator.last_seen_prey =
        states[i]?.map Predator.last_seen_prey) ∧
    (interactPrey cfg predPos states y).iSeePredatorSignal = false ∧
    (interactPrey cfg predPos states y).iSeePreySignals = [] := by
  refine ⟨?_, ?_, ?_, ?_⟩
  · intro i hi
    rw [interactPrey_predators_get?, if_pos h, if_pos hi]
  · intro i
    rw [interactPrey_predators_get?, if_pos h]
    by_cases hi : i ∈ eatMe cfg predPos y
    · rw [if_pos hi]
      cases states[i]? with
      | none => simp
      | some s => simp [Predator.scoreUp]
    · rw [if_neg hi]
  · simp [interactPrey, h]
  · simp [interactPrey, h]

/-- C1 witness: one predator directly on top of one prey strikes it. -/
theorem C1_witness :
    eatMe (Config.mk 100 1 25 100) [Vec3.mk 10 10 0] (Vec3.mk 10 10 0) ≠ [] ∧
    ((∀ i ∈ eatMe (Config.mk 100 1 25 100) [Vec3.mk 10 10 0]
        (Vec3.mk 10 10 0),
      ((interactPrey (Config.mk 100 1 25 100) [Vec3.mk 10 10 0]
          [Predator.mk 0 none] (Vec3.mk 10 10 0)).predators)[i]? =
        ([Predator.mk 0 none] : List Predator)[i]?.map Predator.scoreUp) ∧
    (∀ i : ℕ,
      (((interactPrey (Config.mk 100 1 25 100) [Vec3.mk 10 10 0]
          [Predator.mk 0 none] (Vec3.mk 10 10 0)).predators)[i]?).map
          Predator.last_seen_prey =
        ([Predator.mk 0 none] : List Predator)[i]?.map
          Predator.last_seen_prey) ∧
    (interactPrey (Config.mk 100 1 25 100) [Vec3.mk 10 10 0]
        [Predator.mk 0 none] (Vec3.mk 10 10 0)).iSeePredatorSignal = false ∧
    (interactPrey (Config.mk 100 1 25 100) [Vec3.mk 10 10 0]
        [Predator.mk 0 none] (Vec3.mk 10 10 0)).iSeePreySignals = []) :=
  ⟨by norm_num [eatMe, classify, enumFrom, Vec3.distance2],
    C1_strike_priority (Config.mk 100 1 25 100) [Vec3.mk 10 10 0]
      [Predator.mk 0 none] (Vec3.mk 10 10 0)
      (by norm_num [eatMe, classify, enumFrom, Vec3.distance2])⟩

/-- C2: assuming squared strike radius ≤ squared predator view radius, each
predator–prey pair falls in exactly one of three classes with inclusive
boundaries — strike iff `d² ≤ strike²`, sighted iff `strike² < d² ≤ view²`,
and out of range iff `d² > view²` — and an out-of-range predator's state is
untouched by this prey's resolution. -/
theorem C2_classification (cfg : Config) (predPos : List (Vec3 ℚ))
    (states : List Predator) (y p : Vec3 ℚ) (i : ℕ)
    (hsv : cfg.predatorStrike ≤ cfg.predatorView)
    (hp : predPos[i]? = some p) :
    (i ∈ eatMe cfg predPos y ↔
      Vec3.distance2 p y ≤ cfg.predatorStrike) ∧
    (i ∈ seeMe cfg predPos y ↔
      cfg.predatorStrike < Vec3.distance2 p y ∧
        Vec3.distance2 p y ≤ cfg.predatorView) ∧
    ((i ∉ eatMe cfg predPos y ∧ i ∉ seeMe cfg predPos y) ↔
      Vec3.distance2 p y > cfg.predatorView) ∧
    (Vec3.distance2 p y > cfg.predatorView →
      ((interactPrey cfg predPos states y).predators)[i]? = states[i]?) := by
  have he := mem_eatMe_iff cfg predPos y p i hsv hp
  have hs := mem_seeMe_iff cfg predPos y p i hp
  have hnotfar : Vec3.distance2 p y > cfg.predatorView →
      i ∉ eatMe cfg predPos y ∧ i ∉ seeMe cfg predPos y := by
    intro hv
    constructor
    · rw [he]
      exact fun hle => absurd hv (not_lt.mpr (hle.trans hsv))
    · rw [hs]
      rintro ⟨_, hb⟩
      exact absurd hv (not_lt.mpr hb)
  refine ⟨he, hs, ?_, ?_⟩
  · constructor
    · rintro ⟨h1, h2⟩
      by_contra hcon
      push_neg at hcon
      rcases le_or_lt (Vec3.distance2 p y) cfg.predatorStrike with hle | hgt
      · exact h1 (he.mpr hle)
      · exact h2 (hs.mpr ⟨hgt, hcon⟩)
    · exact hnotfar
  · intro hv
    obtain ⟨h1, h2⟩ := hnotfar hv
    rw [interactPrey_predators_get?]
    by_cases hne : eatMe cfg predPos y ≠ []
    · rw [if_pos hne, if_neg h1]
    · rw [if_neg hne, if_neg h2]

/-- C2 witness: predator at the prey's exact position is classified strike
and not sighted; the out-of-range clause holds vacuously there. -/
theorem C2_witness :
    (Config.mk 100 1 25 100).predatorStrike ≤
      (Config.mk 100 1 25 100).predatorView ∧
    ([Vec3.mk 10 10 0] : List (Vec3 ℚ))[0]? = some (Vec3.mk 10 10 0) ∧
    ((0 ∈ eatMe (Config.mk 100 1 25 100) [Vec3.mk 10 10 0] (Vec3.mk 10 10 0) ↔
      Vec3.distance2 (Vec3.mk 10 10 0) (Vec3.mk 10 10 0) ≤
        (Config.mk 100 1 25 100).predatorStrike) ∧
    (0 ∈ seeMe (Config.mk 100 1 25 100) [Vec3.mk 10 10 0] (Vec3.mk 10 10 0) ↔
      (Config.mk 100 1 25 100).predatorStrike <
          Vec3.distance2 (Vec3.mk 10 10 0) (Vec3.mk 10 10 0) ∧
        Vec3.distance2 (Vec3.mk 10 10 0) (Vec3.mk 10 10 0) ≤
          (Config.mk 100 1 25 100).predatorView) ∧
    ((0 ∉ eatMe (Config.mk 100 1 25 100) [Vec3.mk 10 10 0]
        (Vec3.mk 10 10 0) ∧
      0 ∉ seeMe (Config.mk 100 1 25 100) [Vec3.mk 10 10 0]
        (Vec3.mk 10 10 0)) ↔
      Vec3.distance2 (Vec3.mk 10 10 0) (Vec3.mk 10 10 0) >
        (Config.mk 100 1 25 100).predatorView) ∧
    (Vec3.distance2 (Vec3.mk 10 10 0) (Vec3.mk 10 10 0) >
        (Config.mk 100 1 25 100).predatorView →
      ((interactPrey (Config.mk 100 1 25 100) [Vec3.mk 10 10 0]
          [Predator.mk 0 none] (Vec3.mk 10 10 0)).predators)[0]? =
        ([Predator.mk 0 none] : List Predator)[0]?)) :=
  ⟨by norm_num, rfl, C2_classification (Config.mk 100 1 25 100)
    [Vec3.mk 10 10 0] [Predator.mk 0 none] (Vec3.mk 10 10 0)
    (Vec3.mk 10 10 0) 0 (by norm_num) rfl⟩

/-- C3: over one full pass of `interact`, the score of the predator at index
`i` grows by exactly the number of distinct prey within its squared strike
radius (hence never decreases); `countStrikes` is that number, shown equal
to the length of the filtered prey list. -/
theorem C3_score_monotone (cfg : Config) (predPos : List (Vec3 ℚ))
    (states : List Predator) (preys : List (Vec3 ℚ)) (i : ℕ) (p : Vec3 ℚ)
    (hsv : cfg.predatorStrike ≤ cfg.predatorView)
    (hp : predPos[i]? = some p) :
    (((interact cfg predPos states preys).1)[i]?).map Predator.score =
      states[i]?.map (fun s => s.score + countStrikes cfg p preys) ∧
    countStrikes cfg p preys =
      (preys.filter (fun q => Vec3.distance2 p q ≤ cfg.predatorStrike)).length ∧
    (∀ s0 s1, states[i]? = some s0 →
      ((interact cfg predPos states preys).1)[i]? = some s1 →
      s0.score ≤ s1.score) := by
  have hmain : (((interact cfg predPos states preys).1)[i]?).map
      Predator.score =
      states[i]?.map (fun s => s.score + countStrikes cfg p preys) := by
    rw [interact_states]
    have h0 := interact_score_aux cfg predPos i p hsv hp preys states 0
    simpa using h0
  refine ⟨hmain, countStrikes_eq_length_filter cfg p preys, ?_⟩
  intro s0 s1 h0 h1
  rw [h0, h1] at hmain
  simp at hmain
  omega

/-- C3 witness: a predator at the origin with two prey, one at distance² 0
and one at distance² 25, scores exactly once with strike radius² 1. -/
theorem C3_witness :
    (Config.mk 100 1 25 100).predatorStrike ≤
      (Config.mk 100 1 25 100).predatorView ∧
    ([Vec3.mk 0 0 0] : List (Vec3 ℚ))[0]? = some (Vec3.mk 0 0 0) ∧
    ((((interact (Config.mk 100 1 25 100) [Vec3.mk 0 0 0] [Predator.mk 0 none]
        [Vec3.mk 0 0 0, Vec3.mk 3 4 0]).1)[0]?).map Predator.score =
      ([Predator.mk 0 none] : List Predator)[0]?.map
        (fun s => s.score + countStrikes (Config.mk 100 1 25 100)
          (Vec3.mk 0 0 0) [Vec3.mk 0 0 0, Vec3.mk 3 4 0]) ∧
    countStrikes (Config.mk 100 1 25 100) (Vec3.mk 0 0 0)
        [Vec3.mk 0 0 0, Vec3.mk 3 4 0] =
      (([Vec3.mk 0 0 0, Vec3.mk 3 4 0] : List (Vec3 ℚ)).filter
        (fun q => Vec3.distance2 (Vec3.mk 0 0 0) q ≤
          (Config.mk 100 1 25 100).predatorStrike)).length ∧
    (∀ s0 s1, ([Predator.mk 0 none] : List Predator)[0]? = some s0 →
      ((interact (Config.mk 100 1 25 100) [Vec3.mk 0 0 0] [Predator.mk 0 none]
        [Vec3.mk 0 0 0, Vec3.mk 3 4 0]).1)[0]? = some s1 →
      s0.score ≤ s1.score)) :=
  ⟨by norm_num, rfl, C3_score_monotone (Config.mk 100 1 25 100)
    [Vec3.mk 0 0 0] [Predator.mk 0 none] [Vec3.mk 0 0 0, Vec3.mk 3 4 0] 0
    (Vec3.mk 0 0 0) (by norm_num) rfl⟩

/-- C5 counterexample: with squared prey view radius 25, a predator at
squared distance exactly 25 is sighted and satisfies `d² ≤ preyView²`, yet
it is NOT marked mutually-visible — the source compares with a strict `<`
(src/entities/mod.rs:77), not with `≤` as the claim states. -/
theorem C5_counterexample :
    0 ∈ seeMe (Config.mk 100 1 25 100) [Vec3.mk 0 0 0] (Vec3.mk 3 4 0) ∧
    Vec3.distance2 (Vec3.mk 0 0 0) (Vec3.mk 3 4 0) ≤
      (Config.mk 100 1 25 100).preyView ∧
    0 ∉ iSee (Config.mk 100 1 25 100) [Vec3.mk 0 0 0] (Vec3.mk 3 4 0) := by
  refine ⟨?_, ?_, ?_⟩
  · norm_num [seeMe, classify, enumFrom, Vec3.distance2]
  · norm_num [Vec3.distance2]
  · norm_num [iSee, classify, enumFrom, Vec3.distance2]

/-- C5 amended: a sighted predator is marked mutually-visible exactly when
its squared distance is STRICTLY below the prey's squared view radius. -/
theorem C5_mutual_visibility (cfg : Config) (predPos : List (Vec3 ℚ))
    (y p : Vec3 ℚ) (i : ℕ) (hp : predPos[i]? = some p) :
    i ∈ iSee cfg predPos y ↔
      i ∈ seeMe cfg predPos y ∧ Vec3.distance2 p y < cfg.preyView := by
  rw [mem_iSee_iff cfg predPos y p i hp, mem_seeMe_iff cfg predPos y p i hp]
  tauto

/-- C5 witness: a predator at squared distance 2 (strike² = 1 < 2 < 25 =
preyView²) is both sighted and mutually-visible. -/
theorem C5_witness :
    ([Vec3.mk 0 0 0] : List (Vec3 ℚ))[0]? = some (Vec3.mk 0 0 0) ∧
    (0 ∈ iSee (Config.mk 100 1 25 100) [Vec3.mk 0 0 0] (Vec3.mk 1 1 0) ↔
      0 ∈ seeMe (Config.mk 100 1 25 100) [Vec3.mk 0 0 0] (Vec3.mk 1 1 0) ∧
        Vec3.distance2 (Vec3.mk 0 0 0) (Vec3.mk 1 1 0) <
          (Config.mk 100 1 25 100).preyView) :=
  ⟨rfl, C5_mutual_visibility (Config.mk 100 1 25 100) [Vec3.mk 0 0 0]
    (Vec3.mk 1 1 0) (Vec3.mk 0 0 0) 0 rfl⟩

/-- C9: one pass of the interaction engine leaves every prey position and
every prey record exactly as it found them — prey state is read-only to
`interact`. -/
theorem C9_prey_read_only (cfg : Config) (w : World) :
    (interactWorld cfg w).1.preyPositions = w.preyPositions ∧
    (interactWorld cfg w).1.preyStates = w.preyStates :=
  ⟨rfl, rfl⟩

/-- C4: after one `nudge` step each horizontal position component equals the
saturating per-axis clamp of `position + velocity × delta_time` into
`[0, MAP_SIZE]` (no bounce, no wrap), and hence lies within `[0, MAP_SIZE]`
inclusive, for any velocity and positive delta-time (world size taken
non-negative, as the spec requires a positive world size). -/
theorem C4_boundary_clamp (mapSize dt : ℝ) (vel : Vec3 ℝ) (s : MotionState)
    (hm : 0 ≤ mapSize) (hdt : 0 < dt) :
    (nudge mapSize dt vel s).pos.x =
      max (min (s.pos.x + vel.x * dt) mapSize) 0 ∧
    (nudge mapSize dt vel s).pos.y =
      max (min (s.pos.y + vel.y * dt) mapSize) 0 ∧
    0 ≤ (nudge mapSize dt vel s).pos.x ∧
    (nudge mapSize dt vel s).pos.x ≤ mapSize ∧
    0 ≤ (nudge mapSize dt vel s).pos.y ∧
    (nudge mapSize dt vel s).pos.y ≤ mapSize := by
  have hx : (nudge mapSize dt vel s).pos.x =
      max (min (s.pos.x + vel.x * dt) mapSize) 0 := rfl
  have hy : (nudge mapSize dt vel s).pos.y =
      max (min (s.pos.y + vel.y * dt) mapSize) 0 := rfl
  refine ⟨hx, hy, ?_, ?_, ?_, ?_⟩
  · rw [hx]; exact le_max_right _ _
  · rw [hx]; exact max_le (min_le_right _ _) hm
  · rw [hy]; exact le_max_right _ _
  · rw [hy]; exact max_le (min_le_right _ _) hm

/-- C4 witness (Scenario D of the spec): an agent at `(99, 50)` with
velocity `(10, 0)`, `delta = 1`, `MAP_SIZE = 100` clamps to `(100, 50)`. -/
theorem C4_witness :
    (0:ℝ) ≤ 100 ∧ (0:ℝ) < 1 ∧
    ((nudge 100 1 (Vec3.mk 10 0 0)
        (MotionState.mk (Vec3.mk 99 50 0) (Quat.mk 0 0 0 1))).pos.x =
      max (min ((Vec3.mk (99:ℝ) 50 0).x + (Vec3.mk (10:ℝ) 0 0).x * 1) 100) 0 ∧
    (nudge 100 1 (Vec3.mk 10 0 0)
        (MotionState.mk (Vec3.mk 99 50 0) (Quat.mk 0 0 0 1))).pos.y =
      max (min ((Vec3.mk (99:ℝ) 50 0).y + (Vec3.mk (10:ℝ) 0 0).y * 1) 100) 0 ∧
    0 ≤ (nudge 100 1 (Vec3.mk 10 0 0)
        (MotionState.mk (Vec3.mk 99 50 0) (Quat.mk 0 0 0 1))).pos.x ∧
    (nudge 100 1 (Vec3.mk 10 0 0)
        (MotionState.mk (Vec3.mk 99 50 0) (Quat.mk 0 0 0 1))).pos.x ≤ 100 ∧
    0 ≤ (nudge 100 1 (Vec3.mk 10 0 0)
        (MotionState.mk (Vec3.mk 99 50 0) (Quat.mk 0 0 0 1))).pos.y ∧
    (nudge 100 1 (Vec3.mk 10 0 0)
        (MotionState.mk (Vec3.mk 99 50 0) (Quat.mk 0 0 0 1))).pos.y ≤ 100) :=
  ⟨by norm_num, by norm_num,
    C4_boundary_clamp 100 1 (Vec3.mk 10 0 0)
      (MotionState.mk (Vec3.mk 99 50 0) (Quat.mk 0 0 0 1))
      (by norm_num) (by norm_num)⟩

/-- C6: with the zero velocity vector, `nudge` leaves the orientation
untouched. -/
theorem C6_orientation_stable (mapSize dt : ℝ) (vel : Vec3 ℝ)
    (s : MotionState) (h : vel = Vec3.zero) :
    (nudge mapSize dt vel s).rot = s.rot := by
  unfold nudge
  simp [h]

/-- C6 witness: a stationary agent keeps its orientation quaternion. -/
theorem C6_witness :
    (Vec3.zero : Vec3 ℝ) = Vec3.zero ∧
    (nudge 100 1 Vec3.zero
        (MotionState.mk (Vec3.mk 5 5 0) (Quat.mk 0 0 0 1))).rot =
      Quat.mk 0 0 0 1 :=
  ⟨rfl, C6_orientation_stable 100 1 Vec3.zero
    (MotionState.mk (Vec3.mk 5 5 0) (Quat.mk 0 0 0 1)) rfl⟩

/-- C7: with a non-zero velocity, the new orientation is the pure rotation
about the planar normal (z axis) by the angle `acos(vn.x) * signum(vn.y)`,
`vn` the normalized velocity. -/
theorem C7_heading (mapSize dt : ℝ) (vel : Vec3 ℝ) (s : MotionState)
    (h : vel ≠ Vec3.zero) :
    (nudge mapSize dt vel s).rot =
      Quat.fromRotationZ
        (Real.arccos vel.normalize.x * fsignum vel.normalize.y) := by
  unfold nudge
  simp [h]

/-- C7 witness: velocity `(1, 0, 0)` is non-zero and yields the rotation
from `acos` of its normalized x component signed by its y component. -/
theorem C7_witness :
    (Vec3.mk (1:ℝ) 0 0) ≠ Vec3.zero ∧
    (nudge 100 1 (Vec3.mk 1 0 0)
        (MotionState.mk (Vec3.mk 0 0 0) (Quat.mk 0 0 0 1))).rot =
      Quat.fromRotationZ
        (Real.arccos (Vec3.mk (1:ℝ) 0 0).normalize.x *
          fsignum (Vec3.mk (1:ℝ) 0 0).normalize.y) := by
  have h : (Vec3.mk (1:ℝ) 0 0) ≠ Vec3.zero := by
    simp [Vec3.zero]
  exact ⟨h, C7_heading 100 1 (Vec3.mk 1 0 0)
    (MotionState.mk (Vec3.mk 0 0 0) (Quat.mk 0 0 0 1)) h⟩

/-- C8 counterexample: with `Left` pressed (`dt = 1`, `max_speed = 1`) and
starting velocity `(1, 0, 0)`, the directional delta is `(-1, 0, 0)` and the
sum is the zero vector; normalizing it divides zero by zero (NaN in the
source, the zero vector in this exact embedding), so the resulting speed is
0, not the max speed 1 — the claim fails without a nonzero-sum proviso. -/
theorem C8_counterexample :
    (KeyState.mk true false false false).left = true ∧
    (keyboard_movement 1 (KeyState.mk true false false false)
        (Vec3.mk 1 0 0) 1).length ≠ 1 := by
  constructor
  · rfl
  · have hch : ((Vec3.mk (xVel (KeyState.mk true false false false))
        (yVel (KeyState.mk true false false false)) 0).smul 1).smul 1 ≠
          Vec3.zero := by
      simp [xVel, yVel, Vec3.smul, Vec3.zero]
    simp only [keyboard_movement]
    rw [if_pos hch]
    have hadd : (Vec3.mk (1:ℝ) 0 0).add
        (((Vec3.mk (xVel (KeyState.mk true false false false))
          (yVel (KeyState.mk true false false false)) 0).smul 1).smul 1) =
        Vec3.zero := by
      simp [xVel, yVel, Vec3.smul, Vec3.add, Vec3.zero]
    rw [hadd, Vec3.normalize_zero]
    have hz : (Vec3.zero : Vec3 ℝ).smul 1 = Vec3.zero := by
      simp [Vec3.smul, Vec3.zero]
    rw [hz, Vec3.length_zero]
    norm_num

/-- C8 amended: with positive delta-time and positive max speed, whenever at
least one directional input is active AND the sum of the current velocity
and the directional delta is non-zero, the renormalized velocity produced by
`keyboard_movement` has magnitude exactly `max_speed`. -/
theorem C8_renormalized_speed (dt maxSpeed : ℝ) (k : KeyState) (vel : Vec3 ℝ)
    (hdt : 0 < dt) (hm : 0 < maxSpeed)
    (hactive : k.left = true ∨ k.right = true ∨ k.down = true ∨ k.up = true)
    (hsum : vel.add (((Vec3.mk (xVel k) (yVel k) 0).smul dt).smul maxSpeed) ≠
      Vec3.zero) :
    (keyboard_movement dt k vel maxSpeed).length = maxSpeed := by
  have hdir : xVel k ≠ 0 ∨ yVel k ≠ 0 := by
    rcases hactive with h | h | h | h
    · left; simp [xVel, h]
    · left; simp only [xVel, h]; split_ifs <;> norm_num
    · right; simp [yVel, h]
    · right; simp only [yVel, h]; split_ifs <;> norm_num
  have hch : ((Vec3.mk (xVel k) (yVel k) 0).smul dt).smul maxSpeed ≠
      Vec3.zero := by
    intro hc
    have hcx := congrArg Vec3.x hc
    have hcy := congrArg Vec3.y hc
    simp only [Vec3.smul, Vec3.zero] at hcx hcy
    rcases hdir with hv | hv
    · rw [mul_assoc] at hcx
      rcases mul_eq_zero.mp hcx with h | h
      · exact hv h
      · rcases mul_eq_zero.mp h with h | h
        · exact absurd h (ne_of_gt hdt)
        · exact absurd h (ne_of_gt hm)
    · rw [mul_assoc] at hcy
      rcases mul_eq_zero.mp hcy with h | h
      · exact hv h
      · rcases mul_eq_zero.mp h with h | h
        · exact absurd h (ne_of_gt hdt)
        · exact absurd h (ne_of_gt hm)
  simp only [keyboard_movement]
  rw [if_pos hch, Vec3.length_smul, Vec3.length_normalize _ hsum, mul_one,
    abs_of_pos hm]

/-- C8 witness: pressing `Right` from rest with `dt = 1`, `max_speed = 2`
yields a velocity of magnitude exactly 2. -/
theorem C8_witness :
    (0:ℝ) < 1 ∧ (0:ℝ) < 2 ∧
    ((KeyState.mk false true false false).left = true ∨
      (KeyState.mk false true false false).right = true ∨
      (KeyState.mk false true false false).down = true ∨
      (KeyState.mk false true false false).up = true) ∧
    (Vec3.zero : Vec3 ℝ).add
        (((Vec3.mk (xVel (KeyState.mk false true false false))
          (yVel (KeyState.mk false true false false)) 0).smul 1).smul 2) ≠
      Vec3.zero ∧
    (keyboard_movement 1 (KeyState.mk false true false false)
        Vec3.zero 2).length = 2 := by
  have hsum : (Vec3.zero : Vec3 ℝ).add
      (((Vec3.mk (xVel (KeyState.mk false true false false))
        (yVel (KeyState.mk false true false false)) 0).smul 1).smul 2) ≠
      Vec3.zero := by
    simp [xVel, yVel, Vec3.smul, Vec3.add, Vec3.zero]
  exact ⟨by norm_num, by norm_num, Or.inr (Or.inl rfl), hsum,
    C8_renormalized_speed 1 2 (KeyState.mk false true false false) Vec3.zero
      (by norm_num) (by norm_num) (Or.inr (Or.inl rfl)) hsum⟩

/-- C10: after every `nudge` step the z component of the position is exactly
0, for any input position and velocity — the clamped 2D position is
re-extended with `z = 0`. -/
theorem C10_z_component_zero (mapSize dt : ℝ) (vel : Vec3 ℝ)
    (s : MotionState) :
    (nudge mapSize dt vel s).pos.z = 0 :=
  rfl

end Hunt
